import Mathlib

/-!
Shallow embedding of the LVGL icon codec of this repository
(`src/tools/lvgl_icon_generator/generator.py`, `generator_cli.py`,
`generator_simple.py` and `src/tools/lvgl_image_viewer/viewer.py`).

Pixels are RGBA8 quadruples of `Nat`; byte buffers are `List Nat`.
Python integer arithmetic is total on unbounded ints, so `Nat` with the
bitwise operators `>>>`, `<<<`, `&&&`, `|||` models it directly; the only
overflow-relevant spots use explicit `&&& 0xFF`-style masks exactly where
the Python source has them.
-/

namespace LvglCodec

abbrev Pixel := Nat × Nat × Nat × Nat

/-! ## Encoders, `generator.py` (`LVGLIconGenerator.generate_color_depth_data`) -/

/-- Source `generator.py:300-303`: `color = (r3 << 5) | (g3 << 2) | b2` with
`r3 = (r >> 5) & 0x7`, `g3 = (g >> 5) & 0x7`, `b2 = (b >> 6) & 0x3`. -/
def a8r3g3b2Color (r g b : Nat) : Nat :=
  (((r >>> 5) &&& 0x7) <<< 5) ||| (((g >>> 5) &&& 0x7) <<< 2) ||| ((b >>> 6) &&& 0x3)

/-- Source `generator.py:316-319` (and `333-337`): `rgb565 = (r5 << 11) | (g6 << 5) | b5`
with `r5 = (r >> 3) & 0x1F`, `g6 = (g >> 2) & 0x3F`, `b5 = (b >> 3) & 0x1F`. -/
def rgb565Word (r g b : Nat) : Nat :=
  (((r >>> 3) &&& 0x1F) <<< 11) ||| (((g >>> 2) &&& 0x3F) <<< 5) ||| ((b >>> 3) &&& 0x1F)

/-- Source `generator.py:299-307`: per-pixel bytes of the A8R3G3B2 section
(`LV_COLOR_DEPTH == 1 || LV_COLOR_DEPTH == 8`). -/
def genPxA8R3G3B2 (useCk : Bool) (ck : Nat) (p : Pixel) : List Nat :=
  let color := a8r3g3b2Color p.1 p.2.1 p.2.2.1
  if useCk ∧ color = ck then [0x00, 0x00] else [color, p.2.2.2]

/-- Source `generator.py:315-325`: per-pixel bytes of the little-endian RGB565+A8 section
(`LV_COLOR_DEPTH == 16 && LV_COLOR_16_SWAP == 0`). -/
def genPxRGB565 (useCk : Bool) (ck : Nat) (p : Pixel) : List Nat :=
  let w := rgb565Word p.1 p.2.1 p.2.2.1
  if useCk ∧ w = ck then [0x00, 0x00, 0x00]
  else [w &&& 0xFF, (w >>> 8) &&& 0xFF, p.2.2.2]

/-- Source `generator.py:333-343`: per-pixel bytes of the byte-swapped RGB565+A8 section
(`LV_COLOR_DEPTH == 16 && LV_COLOR_16_SWAP != 0`): high byte first. -/
def genPxRGB565Swap (useCk : Bool) (ck : Nat) (p : Pixel) : List Nat :=
  let w := rgb565Word p.1 p.2.1 p.2.2.1
  if useCk ∧ w = ck then [0x00, 0x00, 0x00]
  else [(w >>> 8) &&& 0xFF, w &&& 0xFF, p.2.2.2]

/-- Source `generator.py:351-356`: per-pixel bytes of the 32-bit RGBA section
(`LV_COLOR_DEPTH == 32`); the chroma compare folds alpha into the value. -/
def genPxRGBA32 (useCk : Bool) (ck : Nat) (p : Pixel) : List Nat :=
  let v := (p.1 <<< 24) ||| (p.2.1 <<< 16) ||| (p.2.2.1 <<< 8) ||| p.2.2.2
  if useCk ∧ v = ck then [0x00, 0x00, 0x00, 0x00]
  else [p.1, p.2.1, p.2.2.1, p.2.2.2]

/-- Whole-buffer encoder for one section of `generate_color_depth_data`:
the Python `for r, g, b, a in self.input_data` loop appending per-pixel bytes. -/
def genSection (px : Pixel → List Nat) (pixels : List Pixel) : List Nat :=
  pixels.flatMap px

/-! ## Encoders, `generator_cli.py:113-123` and `generator_simple.py:534-544`

In both files the `LV_COLOR_DEPTH == 1 || LV_COLOR_DEPTH == 8` sections compute
`r3`, `g3`, `b2` but never append them: only `a8` (or `0x00`) is appended. -/

/-- Source `generator_cli.py:114-123`: per-pixel bytes of its A8R3G3B2 section. -/
def cliPxA8R3G3B2 (p : Pixel) : List Nat :=
  if p.2.2.2 < 128 then [0x00]
  else [if 128 ≤ p.2.2.2 then 0xFF else 0x00]

/-- Source `generator_simple.py:535-544`: per-pixel bytes of its A8R3G3B2 section
(identical shape to the CLI variant). -/
def simplePxA8R3G3B2 (p : Pixel) : List Nat :=
  if p.2.2.2 < 128 then [0x00]
  else [if 128 ≤ p.2.2.2 then 0xFF else 0x00]

/-- Source `generator_simple.py:579-592`: per-pixel bytes of its swapped 16-bit section:
`bgr565 = (b5 << 11) | (g6 << 5) | r5` emitted low byte first. -/
def simplePxRGB565Swap (p : Pixel) : List Nat :=
  if p.2.2.2 < 8 then [0x00, 0x00, 0x00]
  else
    let w := (((p.2.2.1 >>> 3) &&& 0x1F) <<< 11) ||| (((p.2.1 >>> 2) &&& 0x3F) <<< 5) |||
      ((p.1 >>> 3) &&& 0x1F)
    [w &&& 0xFF, (w >>> 8) &&& 0xFF, p.2.2.2]

/-- Source `generator_simple.py:227-237` (`convert_to_rgba`, `RGB565_ALPHA` branch):
3-byte groups `lo, hi, alpha`; channels re-expanded by shifting left
(`r = ((rgb565 >> 11) & 0x1F) << 3` etc.).  The caller guarantees the byte
count is a multiple of 3 (`parse_raw_data` length check); a short tail is
dropped here. -/
def convertRGB565Alpha : List Nat → List Pixel
  | d0 :: d1 :: d2 :: rest =>
    let w := d0 ||| (d1 <<< 8)
    (((w >>> 11) &&& 0x1F) <<< 3, ((w >>> 5) &&& 0x3F) <<< 2, (w &&& 0x1F) <<< 3, d2)
      :: convertRGB565Alpha rest
  | _ => []

/-! ## Decoders, `viewer.py` -/

/-- Row-major pixel grid produced by the nested `for y ... for x ...` loops of
the fixed-size decoders: pixel `(x, y)` lands at output position `y*w + x`. -/
def grid (h w : Nat) (f : Nat → Nat → Pixel) : List Pixel :=
  (List.range h).flatMap fun y => (List.range w).map fun x => f y x

/-- Source `viewer.py:144-149`: read `lo = data[di]`, `hi = data[di+1]`, swap when
`swap16`, `value = (hi << 8) | lo`.  The length guards of the callers keep every
access in range, so out-of-range defaults to 0 here without changing any
reachable behavior. -/
def wordAt (data : List Nat) (swap : Bool) (i : Nat) : Nat :=
  let lo := data.getD i 0
  let hi := data.getD (i + 1) 0
  if swap then (lo <<< 8) ||| hi else (hi <<< 8) ||| lo

/-- Source `viewer.py:150-156`: channel expansion of an RGB565 word,
`r = (r5 * 255) // 31`, `g = (g6 * 255) // 63`, `b = (b5 * 255) // 31`. -/
def decodePxRGB565 (value : Nat) : Pixel :=
  (((value >>> 11) &&& 0x1F) * 255 / 31,
   ((value >>> 5) &&& 0x3F) * 255 / 63,
   (value &&& 0x1F) * 255 / 31, 255)

/-- Source `viewer.py:186-192`: channel expansion of an RGB332 byte,
`r = (r3 * 255) // 7`, `g = (g3 * 255) // 7`, `b = (b2 * 255) // 3`. -/
def decodePxRGB332 (value : Nat) : Pixel :=
  (((value >>> 5) &&& 0x07) * 255 / 7,
   ((value >>> 2) &&& 0x07) * 255 / 7,
   (value &&& 0x03) * 255 / 3, 255)

/-- Source `viewer.py:129-130` etc.: `if stride == 0: stride = line_bytes`. -/
def resolveStride (stride lineBytes : Nat) : Nat :=
  if stride = 0 then lineBytes else stride

/-- Source `viewer.py:121-158` (`decode_true_color_rgb565`): geometry and length
guards return `None`; otherwise each pixel is decoded from the 2-byte word at
`y*stride + 2*x`. -/
def decodeRGB565 (w h : Nat) (data : List Nat) (swap : Bool) (stride0 : Nat) :
    Option (List Pixel) :=
  if w = 0 ∨ h = 0 then none else
  if resolveStride stride0 (w * 2) < w * 2 then none else
  if data.length < h * resolveStride stride0 (w * 2) then none else
  some (grid h w fun y x =>
    decodePxRGB565 (wordAt data swap (y * resolveStride stride0 (w * 2) + 2 * x)))

/-- Source `viewer.py:161-194` (`decode_true_color_rgb332`). -/
def decodeRGB332 (w h : Nat) (data : List Nat) (stride0 : Nat) :
    Option (List Pixel) :=
  if w = 0 ∨ h = 0 then none else
  if resolveStride stride0 w < w then none else
  if data.length < h * resolveStride stride0 w then none else
  some (grid h w fun y x => decodePxRGB332 (data.getD (y * resolveStride stride0 w + x) 0))

/-- Source `viewer.py:229-240`: pixel of the chroma-keyed RGB565 decoder:
the key yields transparent black, anything else decodes opaque. -/
def decodeCkPxRGB565 (key value : Nat) : Pixel :=
  if value = key then (0, 0, 0, 0)
  else (((value >>> 11) &&& 0x1F) * 255 / 31,
        ((value >>> 5) &&& 0x3F) * 255 / 63,
        (value &&& 0x1F) * 255 / 31, 255)

/-- Source `viewer.py:197-244` (`decode_true_color_chroma_keyed_rgb565`). -/
def decodeCkRGB565 (w h : Nat) (data : List Nat) (key : Nat) (swap : Bool)
    (stride0 : Nat) : Option (List Pixel) :=
  if w = 0 ∨ h = 0 then none else
  if resolveStride stride0 (w * 2) < w * 2 then none else
  if data.length < h * resolveStride stride0 (w * 2) then none else
  some (grid h w fun y x =>
    decodeCkPxRGB565 key (wordAt data swap (y * resolveStride stride0 (w * 2) + 2 * x)))

/-- Source `viewer.py:277-286`: pixel of the chroma-keyed RGB332 decoder. -/
def decodeCkPxRGB332 (key value : Nat) : Pixel :=
  if value = key then (0, 0, 0, 0)
  else (((value >>> 5) &&& 0x07) * 255 / 7,
        ((value >>> 2) &&& 0x07) * 255 / 7,
        (value &&& 0x03) * 255 / 3, 255)

/-- Source `viewer.py:247-290` (`decode_true_color_chroma_keyed_rgb332`). -/
def decodeCkRGB332 (w h : Nat) (data : List Nat) (key : Nat) (stride0 : Nat) :
    Option (List Pixel) :=
  if w = 0 ∨ h = 0 then none else
  if resolveStride stride0 w < w then none else
  if data.length < h * resolveStride stride0 w then none else
  some (grid h w fun y x =>
    decodeCkPxRGB332 key (data.getD (y * resolveStride stride0 w + x) 0))

/-- Source `viewer.py:319-326`: pixel of the chroma-keyed 32-bit decoder: the
little-endian 32-bit word is compared with the key; otherwise the bytes are
read in BGRA order and alpha is forced opaque. -/
def decodeCkPx8888 (key d0 d1 d2 d3 : Nat) : Pixel :=
  let value := d0 ||| (d1 <<< 8) ||| (d2 <<< 16) ||| (d3 <<< 24)
  if value = key then (0, 0, 0, 0) else (d2, d1, d0, 255)

/-- Source `viewer.py:293-328` (`decode_true_color_chroma_keyed_rgba8888`). -/
def decodeCk8888 (w h : Nat) (data : List Nat) (key : Nat) (stride0 : Nat) :
    Option (List Pixel) :=
  if w = 0 ∨ h = 0 then none else
  if resolveStride stride0 (w * 4) < w * 4 then none else
  if data.length < h * resolveStride stride0 (w * 4) then none else
  some (grid h w fun y x =>
    decodeCkPx8888 key (data.getD (y * resolveStride stride0 (w * 4) + 4 * x) 0)
      (data.getD (y * resolveStride stride0 (w * 4) + 4 * x + 1) 0)
      (data.getD (y * resolveStride stride0 (w * 4) + 4 * x + 2) 0)
      (data.getD (y * resolveStride stride0 (w * 4) + 4 * x + 3) 0))

/-- Source `viewer.py:391-418` (`decode_true_color_alpha_v8_rgba`): byte-for-byte copy
of each 4-byte RGBA pixel, row base `y*stride`. -/
def decodeV8Rgba (w h : Nat) (data : List Nat) (stride0 : Nat) :
    Option (List Pixel) :=
  if w = 0 ∨ h = 0 then none else
  if resolveStride stride0 (w * 4) < w * 4 then none else
  if data.length < h * resolveStride stride0 (w * 4) then none else
  some (grid h w fun y x =>
    (data.getD (y * resolveStride stride0 (w * 4) + 4 * x) 0,
     data.getD (y * resolveStride stride0 (w * 4) + 4 * x + 1) 0,
     data.getD (y * resolveStride stride0 (w * 4) + 4 * x + 2) 0,
     data.getD (y * resolveStride stride0 (w * 4) + 4 * x + 3) 0))

/-! ## Alpha-only decoder, `viewer.py:451-508` (`decode_alpha_to_grayscale`) -/

/-- Source `viewer.py:495-502`: expansion of an N-bit alpha code. -/
def expandAlpha (bits idx : Nat) : Nat :=
  if bits = 1 then (if idx ≠ 0 then 255 else 0)
  else if bits = 2 then idx * 85
  else if bits = 4 then idx * 17
  else idx

/-- Inner `for x in range(w)` loop of `decode_alpha_to_grayscale`: reads the
code at `lineStart + bitOffset/8`, shift `8 - bits - bitOffset%8`, mask
`2^bits - 1`; an out-of-range byte (`IndexError`) breaks the row.  Returns the
pixels actually written (the Python `oi` cursor advances only on a write). -/
def alphaRow (data : List Nat) (bits mask lineStart : Nat) :
    Nat → Nat → List Pixel
  | 0, _ => []
  | n + 1, bitOffset =>
    match data[lineStart + bitOffset / 8]? with
    | none => []
    | some byte =>
      let idx := (byte >>> (8 - bits - bitOffset % 8)) &&& mask
      (0, 0, 0, expandAlpha bits idx) :: alphaRow data bits mask lineStart n (bitOffset + bits)

/-- Embedding of `decode_alpha_to_grayscale`: guards, then the row loop; the output buffer
is pre-zeroed to `w*h` pixels, so unwritten trailing positions stay
`(0,0,0,0)`.  `dataSize = 0` models a falsy `img.data_size` (`None` or 0),
which skips the declared-size check exactly as the Python truthiness test
does. -/
def decodeAlphaGray (w h bits dataSize : Nat) (data : List Nat) (stride0 : Nat) :
    Option (List Pixel) :=
  if w = 0 ∨ h = 0 then none else
  if resolveStride stride0 ((w * bits + 7) / 8) < (w * bits + 7) / 8 then none else
  if dataSize ≠ 0 ∧ dataSize < h * resolveStride stride0 ((w * bits + 7) / 8) then none else
  let written := (List.range h).flatMap fun y =>
    alphaRow data bits ((1 <<< bits) - 1) (y * resolveStride stride0 ((w * bits + 7) / 8)) w 0
  some (written ++ List.replicate (w * h - written.length) (0, 0, 0, 0))

/-! ## Indexed decoder, `viewer.py:511-601` (`decode_indexed`) -/

/-- Source `viewer.py:521-526`: per-entry palette stride from the declared color-depth
tag: 32 → 4, 16 → 3, anything else (the 8 tag) → 2.  The Python tag
is a string; it is modelled by its numeric value, with the same catch-all. -/
def palStrideOf (depth : Nat) : Nat :=
  if depth = 32 then 4 else if depth = 16 then 3 else 2

/-- Source `viewer.py:542-545`: 4-byte palette entries, stored `b, g, r, a`. -/
def buildPal4 : List Nat → List Pixel
  | b :: g :: r :: a :: rest => (r, g, b, a) :: buildPal4 rest
  | _ => []

/-- Source `viewer.py:546-560`: 3-byte palette entries, an RGB565 word (optionally
byte-swapped) plus an alpha byte, expanded with the floor-division rule. -/
def buildPal3 (swap : Bool) : List Nat → List Pixel
  | lo :: hi :: a :: rest =>
    let v := if swap then (lo <<< 8) ||| hi else (hi <<< 8) ||| lo
    (((v >>> 11) &&& 0x1F) * 255 / 31, ((v >>> 5) &&& 0x3F) * 255 / 63,
     (v &&& 0x1F) * 255 / 31, a) :: buildPal3 swap rest
  | _ => []

/-- Source `viewer.py:561-571`: 2-byte palette entries, an RGB332 byte plus alpha. -/
def buildPal2 : List Nat → List Pixel
  | v :: a :: rest =>
    (((v >>> 5) &&& 0x07) * 255 / 7, ((v >>> 2) &&& 0x07) * 255 / 7,
     (v &&& 0x03) * 255 / 3, a) :: buildPal2 rest
  | _ => []

/-- Palette loading dispatch of `decode_indexed`. -/
def buildPalette (depth : Nat) (swap : Bool) (raw : List Nat) : List Pixel :=
  if depth = 32 then buildPal4 raw
  else if depth = 16 then buildPal3 swap raw
  else buildPal2 raw

/-- Inner `for x in range(w)` loop of `decode_indexed` (`viewer.py:581-600`):
an out-of-range pixel byte breaks the row; a palette miss (`IndexError` on
`palette[idx]`) is `pass`ed — the iteration consumes an `x` but advances
neither the bit cursor nor the output cursor. -/
def idxRow (pix : List Nat) (palette : List Pixel) (bits mask lineStart : Nat) :
    Nat → Nat → List Pixel
  | 0, _ => []
  | n + 1, bitOffset =>
    match pix[lineStart + bitOffset / 8]? with
    | none => []
    | some byte =>
      let idx := (byte >>> (8 - bits - bitOffset % 8)) &&& mask
      match palette[idx]? with
      | some p => p :: idxRow pix palette bits mask lineStart n (bitOffset + bits)
      | none => idxRow pix palette bits mask lineStart n bitOffset

/-- The same row loop with the palette miss branch replaced by a total lookup
(`getD`); used to state that the miss branch of `idxRow` is unreachable. -/
def idxRowD (pix : List Nat) (palette : List Pixel) (bits mask lineStart : Nat) :
    Nat → Nat → List Pixel
  | 0, _ => []
  | n + 1, bitOffset =>
    match pix[lineStart + bitOffset / 8]? with
    | none => []
    | some byte =>
      let idx := (byte >>> (8 - bits - bitOffset % 8)) &&& mask
      palette.getD idx (0, 0, 0, 0) ::
        idxRowD pix palette bits mask lineStart n (bitOffset + bits)

/-- Source `viewer.py:511-601` (`decode_indexed`): palette split, length guards
(`stride > 0` overrides `bytes_per_line` with no minimum check), row loop,
pre-zeroed output. -/
def decodeIndexed (w h bits depth : Nat) (swap : Bool) (stride0 : Nat)
    (data : List Nat) : Option (List Pixel) :=
  if w = 0 ∨ h = 0 then none else
  if data.length < (1 <<< bits) * palStrideOf depth then none else
  if (data.drop ((1 <<< bits) * palStrideOf depth)).length <
      h * (if 0 < stride0 then stride0 else (w * bits + 7) / 8) then none else
  let written := (List.range h).flatMap fun y =>
    idxRow (data.drop ((1 <<< bits) * palStrideOf depth))
      (buildPalette depth swap (data.take ((1 <<< bits) * palStrideOf depth)))
      bits ((1 <<< bits) - 1)
      (y * (if 0 < stride0 then stride0 else (w * bits + 7) / 8)) w 0
  some (written ++ List.replicate (w * h - written.length) (0, 0, 0, 0))

/-- Variant of `decode_indexed` with the total-lookup row loop; equal to `decodeIndexed`
whenever the palette guard passed (see the C7 theorem). -/
def decodeIndexedTotal (w h bits depth : Nat) (swap : Bool) (stride0 : Nat)
    (data : List Nat) : Option (List Pixel) :=
  if w = 0 ∨ h = 0 then none else
  if data.length < (1 <<< bits) * palStrideOf depth then none else
  if (data.drop ((1 <<< bits) * palStrideOf depth)).length <
      h * (if 0 < stride0 then stride0 else (w * bits + 7) / 8) then none else
  let written := (List.range h).flatMap fun y =>
    idxRowD (data.drop ((1 <<< bits) * palStrideOf depth))
      (buildPalette depth swap (data.take ((1 <<< bits) * palStrideOf depth)))
      bits ((1 <<< bits) - 1)
      (y * (if 0 < stride0 then stride0 else (w * bits + 7) / 8)) w 0
  some (written ++ List.replicate (w * h - written.length) (0, 0, 0, 0))

/-! ## Textual parser, `viewer.py:40-119` (`parse_lvgl_c_file`)

Only the array-body processing (lines 79-115) is embedded: the byte-array body
string is already in hand and the Python code splits it on conditional guards
and extracts byte literals with
the findall regex (hex alternative first, then bounded decimal).
Strings are `List Char`; the regex is embedded by its left-to-right,
first-alternative-wins, greedy-with-backtracking scan on ASCII word
characters (the bodies are C source text). -/

/-- Python `\w` on the ASCII range: letters, digits, underscore. -/
def wordChar (c : Char) : Bool :=
  c.isAlphanum || c = '_'

/-- Python `str.strip` whitespace set. -/
def pySpace (c : Char) : Bool :=
  c = ' ' || c = '\t' || c = '\n' || c = '\r' || c = '\x0b' || c = '\x0c'

/-- Python `str.strip`. -/
def stripPy (cs : List Char) : List Char :=
  ((cs.dropWhile pySpace).reverse.dropWhile pySpace).reverse

def hexVal (c : Char) : Option Nat :=
  if '0' ≤ c ∧ c ≤ '9' then some (c.toNat - '0'.toNat)
  else if 'a' ≤ c ∧ c ≤ 'f' then some (c.toNat - 'a'.toNat + 10)
  else if 'A' ≤ c ∧ c ≤ 'F' then some (c.toNat - 'A'.toNat + 10)
  else none

def digitVal (c : Char) : Nat := c.toNat - '0'.toNat

/-- First regex alternative `0x([0-9a-fA-F]{1,2})` at the current position:
literal `0x`, then one or two hex digits, greedy.  Returns the byte value,
the rest of the input and the last character consumed. -/
def tryHexAt : List Char → Option (Nat × List Char × Char)
  | '0' :: 'x' :: c1 :: c2 :: rest =>
    match hexVal c1, hexVal c2 with
    | some v1, some v2 => some (16 * v1 + v2, rest, c2)
    | some v1, none => some (v1, c2 :: rest, c1)
    | none, _ => none
  | ['0', 'x', c1] => (hexVal c1).map fun v1 => (v1, ([] : List Char), c1)
  | _ => none

/-- Second regex alternative `\b(\d{1,3})\b` at the current position (the
leading boundary is checked by the caller): up to three digits, greedy, with
backtracking on the trailing `\b` — which can only succeed on the maximal
digit run, and fails outright when the run exceeds three digits. -/
def tryDecAt : List Char → Option (Nat × List Char × Char)
  | d1 :: d2 :: d3 :: d4 :: rest =>
    if d1.isDigit ∧ d2.isDigit ∧ d3.isDigit then
      if d4.isDigit ∨ wordChar d4 then none
      else some (100 * digitVal d1 + 10 * digitVal d2 + digitVal d3, d4 :: rest, d3)
    else if d1.isDigit ∧ d2.isDigit then
      if wordChar d3 then none
      else some (10 * digitVal d1 + digitVal d2, d3 :: d4 :: rest, d2)
    else if d1.isDigit then
      if wordChar d2 then none
      else some (digitVal d1, d2 :: d3 :: d4 :: rest, d1)
    else none
  | [d1, d2, d3] =>
    if d1.isDigit ∧ d2.isDigit ∧ d3.isDigit then
      some (100 * digitVal d1 + 10 * digitVal d2 + digitVal d3, [], d3)
    else if d1.isDigit ∧ d2.isDigit then
      if wordChar d3 then none
      else some (10 * digitVal d1 + digitVal d2, [d3], d2)
    else if d1.isDigit then
      if wordChar d2 then none
      else some (digitVal d1, [d2, d3], d1)
    else none
  | [d1, d2] =>
    if d1.isDigit ∧ d2.isDigit then some (10 * digitVal d1 + digitVal d2, [], d2)
    else if d1.isDigit then
      if wordChar d2 then none else some (digitVal d1, [d2], d1)
    else none
  | [d1] => if d1.isDigit then some (digitVal d1, [], d1) else none
  | [] => none

/-- Embedding of the `re.findall` scan of `viewer.py:94-102`/`106-114`: non-overlapping matches
left to right; a matched hex pair is always kept, a matched decimal is kept
only when `0 <= iv <= 255`; on no match the scan advances one character.
`prev` is the character before the scan position (`none` at string start),
used for the leading word boundary of the decimal alternative. -/
def extractAux : Nat → Option Char → List Char → List Nat
  | 0, _, _ => []
  | fuel + 1, prev, cs =>
    match cs with
    | [] => []
    | c :: rest =>
      match tryHexAt cs with
      | some (v, rem, last) => v :: extractAux fuel (some last) rem
      | none =>
        let prevWord := match prev with
          | none => false
          | some p => wordChar p
        if prevWord then extractAux fuel (some c) rest
        else
          match tryDecAt cs with
          | some (v, rem, last) =>
            if v ≤ 255 then v :: extractAux fuel (some last) rem
            else extractAux fuel (some last) rem
          | none => extractAux fuel (some c) rest

def extractBytes (cs : List Char) : List Nat :=
  extractAux cs.length none cs

/-- Tests whether `pat` is an initial run of `cs`. -/
def leadsWith : List Char → List Char → Bool
  | [], _ => true
  | _ :: _, [] => false
  | p :: ps, c :: cs => p == c && leadsWith ps cs

/-- Embedding of the split on the guard markers (`viewer.py:81`): the text before the
first marker, then one `(marker, following-text)` pair per marker occurrence,
scanning left to right. -/
def splitAux : Nat → List Char → List Char × List (List Char × List Char)
  | 0, cs => (cs, [])
  | fuel + 1, cs =>
    if leadsWith "#if ".toList cs then
      let p := splitAux fuel (cs.drop 4)
      ([], ("#if ".toList, p.1) :: p.2)
    else if leadsWith "#elif ".toList cs then
      let p := splitAux fuel (cs.drop 6)
      ([], ("#elif ".toList, p.1) :: p.2)
    else
      match cs with
      | [] => ([], [])
      | c :: rest =>
        let p := splitAux fuel rest
        (c :: p.1, p.2)

def splitMarkers (cs : List Char) : List Char × List (List Char × List Char) :=
  splitAux cs.length cs

/-- Splitting of a block at its first newline when one exists; `none` models the
`IndexError` the Python code hits when the guard block has no newline. -/
def firstLineSplit : List Char → Option (List Char × List Char)
  | [] => none
  | c :: rest =>
    if c = '\n' then some ([], rest)
    else (firstLineSplit rest).map fun pr => (c :: pr.1, pr.2)

/-- Takes the text before the first `#endif` (`viewer.py:92`). -/
def beforeEndifAux : Nat → List Char → List Char
  | 0, _ => []
  | fuel + 1, cs =>
    if leadsWith "#endif".toList cs then []
    else
      match cs with
      | [] => []
      | c :: rest => c :: beforeEndifAux fuel rest

def beforeEndif (cs : List Char) : List Char :=
  beforeEndifAux cs.length cs

/-- Python `dict` insertion: an existing key keeps its position and takes the
new value, a new key is appended. -/
def dictInsert (m : List (List Char × List Nat)) (k : List Char) (v : List Nat) :
    List (List Char × List Nat) :=
  match m with
  | [] => [(k, v)]
  | (k₀, v₀) :: rest =>
    if k₀ == k then (k₀, v) :: rest else (k₀, v₀) :: dictInsert rest k v

/-- The `for i in range(0, len(blocks), 2)` loop body (`viewer.py:87-103`):
each guarded block is split at its first newline into the condition line and
the data text; a block with no newline raises (`none`, and the whole parse
dies with the exception, as in Python). -/
def collectEntries : List (List Char × List Char) → Option (List (List Char × List Nat))
  | [] => some []
  | q :: qs =>
    match firstLineSplit q.2 with
    | none => none
    | some ld =>
      (collectEntries qs).map
        (fun rest => (stripPy ld.1, extractBytes (beforeEndif ld.2)) :: rest)

/-- Source `viewer.py:81-115`: array-body processing.  No guard marker → one buffer
keyed `Default`.  With markers: text before the first marker must strip to
empty (otherwise the Python loop reads a marker string as a block and crashes
on the missing newline — `none`); the first line of each block, stripped, is the
key, and bytes are extracted from the rest up to `#endif`. -/
def parseBody (body : List Char) : Option (List (List Char × List Nat)) :=
  let sp := splitMarkers body
  match sp.2 with
  | [] => some [("Default".toList, extractBytes body)]
  | pairs =>
    if stripPy sp.1 ≠ [] then none
    else
      match collectEntries pairs with
      | none => none
      | some entries => some (entries.foldl (fun acc e => dictInsert acc e.1 e.2) [])

/-! ## Helper lemmas -/

theorem grid_succ (h w : Nat) (f : Nat → Nat → Pixel) :
    grid (h + 1) w f = grid h w f ++ (List.range w).map (f h) := by
  simp [grid, List.range_succ]

theorem grid_length (h w : Nat) (f : Nat → Nat → Pixel) :
    (grid h w f).length = h * w := by
  induction h with
  | zero => simp [grid]
  | succ n ih => simp [grid_succ, ih, Nat.succ_mul]

theorem grid_getElem (h w : Nat) (f : Nat → Nat → Pixel) (x y : Nat)
    (hx : x < w) (hy : y < h) : (grid h w f)[y * w + x]? = some (f y x) := by
  induction h with
  | zero => omega
  | succ n ih =>
    rw [grid_succ]
    rcases Nat.lt_or_ge y n with hlt | hge
    · rw [List.getElem?_append_left (by rw [grid_length]; calc
        y * w + x < y * w + w := by omega
        _ = (y + 1) * w := by ring
        _ ≤ n * w := Nat.mul_le_mul_right w hlt)]
      exact ih hlt
    · have hyn : y = n := by omega
      subst hyn
      rw [List.getElem?_append_right (by rw [grid_length]; omega)]
      rw [grid_length]
      have : y * w + x - y * w = x := by omega
      rw [this, List.getElem?_map, List.getElem?_range hx]
      rfl

theorem and_mask_lt (x n : Nat) (h : x < 2 ^ n) : x &&& (2 ^ n - 1) = x := by
  rw [Nat.and_pow_two_sub_one_eq_mod, Nat.mod_eq_of_lt h]

theorem shiftRight_lt_pow (x k n : Nat) (h : x < 2 ^ (k + n)) : x >>> k < 2 ^ n := by
  rw [Nat.shiftRight_eq_div_pow]
  rw [Nat.div_lt_iff_lt_mul (Nat.pos_pow_of_pos k (by omega))]
  calc x < 2 ^ (k + n) := h
    _ = 2 ^ n * 2 ^ k := by rw [Nat.pow_add]; ring

theorem mask_absorb (x k n : Nat) (hx : x < 2 ^ (k + n)) :
    (x >>> k) &&& (2 ^ n - 1) = x >>> k :=
  and_mask_lt _ n (shiftRight_lt_pow x k n hx)

/-! ## C1 — RGB565_A8 little-endian encoding -/

/-- C1: for every RGBA8 pixel, the little-endian RGB565_A8 encoder of
`generator.py` (no chroma key) emits `[w &&& 0xFF, (w >>> 8) &&& 0xFF, a]`
with `w = ((r>>3)<<11) ||| ((g>>2)<<5) ||| (b>>3)`; and the 2×2 buffer
`[(255,0,0,255),(0,255,0,255),(0,0,255,255),(0,0,0,0)]` encodes to
`00 F8 FF, E0 07 FF, 1F 00 FF, 00 00 00`. -/
theorem c1_rgb565_le_encode :
    (∀ r g b a : Nat, r < 256 → g < 256 → b < 256 →
      genPxRGB565 false 0 (r, g, b, a) =
        [(((r >>> 3) <<< 11) ||| ((g >>> 2) <<< 5) ||| (b >>> 3)) &&& 0xFF,
         ((((r >>> 3) <<< 11) ||| ((g >>> 2) <<< 5) ||| (b >>> 3)) >>> 8) &&& 0xFF,
         a]) ∧
    genSection (genPxRGB565 false 0)
        [(255, 0, 0, 255), (0, 255, 0, 255), (0, 0, 255, 255), (0, 0, 0, 0)] =
      [0x00, 0xF8, 0xFF, 0xE0, 0x07, 0xFF, 0x1F, 0x00, 0xFF, 0x00, 0x00, 0x00] := by
  constructor
  · intro r g b a hr hg hb
    have h5 : (r >>> 3) &&& 0x1F = r >>> 3 := mask_absorb r 3 5 (by norm_num; omega)
    have h6 : (g >>> 2) &&& 0x3F = g >>> 2 := mask_absorb g 2 6 (by norm_num; omega)
    have h5b : (b >>> 3) &&& 0x1F = b >>> 3 := mask_absorb b 3 5 (by norm_num; omega)
    simp only [genPxRGB565, rgb565Word, h5, h6, h5b]
    simp
  · decide

/-- Witness for C1 at the pixel (255,0,0,255). -/
theorem c1_rgb565_le_encode_witness :
    (255 : Nat) < 256 ∧ genPxRGB565 false 0 (255, 0, 0, 255) = [0x00, 0xF8, 0xFF] :=
  ⟨by decide,
   (c1_rgb565_le_encode.1 255 0 0 255 (by decide) (by decide) (by decide)).trans (by decide)⟩

/-! ## C2 — decode expansion is floor division, not rounding -/

/-- C2 counterexample: the RGB565 word `0x1800` carries the 5-bit red code 3;
the decoder expands it to `3*255 // 31 = 24`, while the claimed
round-to-nearest `round(3*255/31)` (= `(2*765+31)/62`) is 25. -/
theorem c2_counterexample :
    decodeRGB565 1 1 [0x00, 0x18] false 0 = some [(24, 0, 0, 255)] ∧
    (24 : Nat) ≠ (2 * (3 * 255) + 31) / (2 * 31) := by
  constructor
  · decide
  · decide

/-- C2 amended: every 3-, 5- or 6-bit color code `c` read from an RGB565 or
RGB332 packed pixel expands to `c * 255 / (2^N - 1)` with truncating (floor)
integer division. -/
theorem c2_floor_expansion :
    (∀ w h data swap stride0 x y res, x < w → y < h →
      decodeRGB565 w h data swap stride0 = some res →
      res[y * w + x]? = some
        (((wordAt data swap (y * resolveStride stride0 (w * 2) + 2 * x) >>> 11) &&& 0x1F)
            * 255 / 31,
         ((wordAt data swap (y * resolveStride stride0 (w * 2) + 2 * x) >>> 5) &&& 0x3F)
            * 255 / 63,
         (wordAt data swap (y * resolveStride stride0 (w * 2) + 2 * x) &&& 0x1F)
            * 255 / 31,
         255)) ∧
    (∀ w h data stride0 x y res, x < w → y < h →
      decodeRGB332 w h data stride0 = some res →
      res[y * w + x]? = some
        (((data.getD (y * resolveStride stride0 w + x) 0 >>> 5) &&& 0x07) * 255 / 7,
         ((data.getD (y * resolveStride stride0 w + x) 0 >>> 2) &&& 0x07) * 255 / 7,
         (data.getD (y * resolveStride stride0 w + x) 0 &&& 0x03) * 255 / 3,
         255)) := by
  constructor
  · intro w h data swap stride0 x y res hx hy hres
    simp only [decodeRGB565] at hres
    split_ifs at hres with h1 h2 h3
    obtain rfl := Option.some.inj hres
    exact grid_getElem h w _ x y hx hy
  · intro w h data stride0 x y res hx hy hres
    simp only [decodeRGB332] at hres
    split_ifs at hres with h1 h2 h3
    obtain rfl := Option.some.inj hres
    exact grid_getElem h w _ x y hx hy

/-- Witness for the amended C2 theorem on a concrete 1×1 image. -/
theorem c2_floor_expansion_witness :
    (0 : Nat) < 1 ∧ decodeRGB565 1 1 [0x00, 0x18] false 0 = some [(24, 0, 0, 255)] ∧
    ([(24, 0, 0, 255)] : List Pixel)[0]? = some (24, 0, 0, 255) :=
  ⟨by decide, by decide,
   c2_floor_expansion.1 1 1 [0x00, 0x18] false 0 0 0 [(24, 0, 0, 255)]
     (by decide) (by decide) (by decide)⟩

/-! ## C3 — behavior on a short packed buffer -/

/-- C3 counterexample: a 2×2 RGB565 buffer truncated by one byte (shortfall
smaller than the 4-byte row) decodes to `none` — no pixel output and no
recoverable partial rows — while the untruncated buffer decodes fully. -/
theorem c3_counterexample :
    decodeRGB565 2 2 [0x00, 0xF8, 0xE0, 0x07, 0x1F, 0x00, 0xFF] false 0 = none ∧
    decodeRGB565 2 2 [0x00, 0xF8, 0xE0, 0x07, 0x1F, 0x00, 0xFF, 0x00] false 0 =
      some [(255, 0, 0, 255), (0, 255, 0, 255), (0, 0, 255, 255), (0, 28, 255, 255)] := by
  constructor
  · decide
  · decide

/-- C3 amended: the RGB565 decoder aborts with no pixel output (`None`) on any
buffer shorter than `height * stride`; the only size
check of the alpha-only decoder reads the declared `data_size` field (here falsy, `0`), so it never
aborts for lack of actual bytes. -/
theorem c3_short_buffer_behavior :
    (∀ w h data swap stride0, data.length < h * resolveStride stride0 (w * 2) →
      decodeRGB565 w h data swap stride0 = none) ∧
    (∀ w h bits data stride0, 0 < w → 0 < h →
      (w * bits + 7) / 8 ≤ resolveStride stride0 ((w * bits + 7) / 8) →
      (decodeAlphaGray w h bits 0 data stride0).isSome) := by
  constructor
  · intro w h data swap stride0 hshort
    simp only [decodeRGB565]
    split_ifs <;> rfl
  · intro w h bits data stride0 hw hh hstr
    simp only [decodeAlphaGray]
    split_ifs with h1 h2 h3
    · omega
    · omega
    · exact (h3.1 rfl).elim
    · simp

/-- Witness for the amended C3 theorem: the truncated 2×2 buffer of the
counterexample, and a 1×1 alpha-8 image with an empty byte buffer. -/
theorem c3_short_buffer_behavior_witness :
    ((7 : Nat) < 2 * resolveStride 0 (2 * 2) ∧
      decodeRGB565 2 2 [0x00, 0xF8, 0xE0, 0x07, 0x1F, 0x00, 0xFF] false 0 = none) ∧
    ((0 : Nat) < 1 ∧ (decodeAlphaGray 1 1 8 0 [] 0).isSome) :=
  ⟨⟨by decide,
    c3_short_buffer_behavior.1 2 2 [0x00, 0xF8, 0xE0, 0x07, 0x1F, 0x00, 0xFF] false 0
      (by decide)⟩,
   ⟨by decide,
    c3_short_buffer_behavior.2 1 1 8 [] 0 (by decide) (by decide) (by decide)⟩⟩

/-! ## C4 — chroma key on encode and decode -/

/-- C4: on encode, a pixel whose quantized color equals the configured chroma
key yields the all-zero transparent byte pattern of its format, for any alpha
(A8R3G3B2, RGB565 little-endian and RGB565 swapped sections of
`generator.py`); on decode, a raw color word equal to the key yields the fully
transparent black pixel and any other word decodes opaque with alpha 255, in
all three chroma-keyed decoders of `viewer.py`. -/
theorem c4_chroma_key :
    (∀ r g b a ck : Nat, a8r3g3b2Color r g b = ck →
      genPxA8R3G3B2 true ck (r, g, b, a) = [0x00, 0x00]) ∧
    (∀ r g b a ck : Nat, rgb565Word r g b = ck →
      genPxRGB565 true ck (r, g, b, a) = [0x00, 0x00, 0x00]) ∧
    (∀ r g b a ck : Nat, rgb565Word r g b = ck →
      genPxRGB565Swap true ck (r, g, b, a) = [0x00, 0x00, 0x00]) ∧
    (∀ w h data key swap stride0 x y res, x < w → y < h →
      decodeCkRGB565 w h data key swap stride0 = some res →
      res[y * w + x]? = some
        (if wordAt data swap (y * resolveStride stride0 (w * 2) + 2 * x) = key
         then (0, 0, 0, 0)
         else decodePxRGB565 (wordAt data swap (y * resolveStride stride0 (w * 2) + 2 * x)))) ∧
    (∀ w h data key stride0 x y res, x < w → y < h →
      decodeCkRGB332 w h data key stride0 = some res →
      res[y * w + x]? = some
        (if data.getD (y * resolveStride stride0 w + x) 0 = key
         then (0, 0, 0, 0)
         else decodePxRGB332 (data.getD (y * resolveStride stride0 w + x) 0))) ∧
    (∀ w h data key stride0 x y res, x < w → y < h →
      decodeCk8888 w h data key stride0 = some res →
      res[y * w + x]? = some
        (if data.getD (y * resolveStride stride0 (w * 4) + 4 * x) 0 |||
            (data.getD (y * resolveStride stride0 (w * 4) + 4 * x + 1) 0 <<< 8) |||
            (data.getD (y * resolveStride stride0 (w * 4) + 4 * x + 2) 0 <<< 16) |||
            (data.getD (y * resolveStride stride0 (w * 4) + 4 * x + 3) 0 <<< 24) = key
         then (0, 0, 0, 0)
         else (data.getD (y * resolveStride stride0 (w * 4) + 4 * x + 2) 0,
               data.getD (y * resolveStride stride0 (w * 4) + 4 * x + 1) 0,
               data.getD (y * resolveStride stride0 (w * 4) + 4 * x) 0, 255))) := by
  refine ⟨?_, ?_, ?_, ?_, ?_, ?_⟩
  · intro r g b a ck hck
    simp [genPxA8R3G3B2, hck]
  · intro r g b a ck hck
    simp [genPxRGB565, hck]
  · intro r g b a ck hck
    simp [genPxRGB565Swap, hck]
  · intro w h data key swap stride0 x y res hx hy hres
    simp only [decodeCkRGB565] at hres
    split_ifs at hres
    obtain rfl := Option.some.inj hres
    exact grid_getElem h w _ x y hx hy
  · intro w h data key stride0 x y res hx hy hres
    simp only [decodeCkRGB332] at hres
    split_ifs at hres
    obtain rfl := Option.some.inj hres
    exact grid_getElem h w _ x y hx hy
  · intro w h data key stride0 x y res hx hy hres
    simp only [decodeCk8888] at hres
    split_ifs at hres
    obtain rfl := Option.some.inj hres
    exact grid_getElem h w _ x y hx hy

/-- Witness for C4: the RGB565 key `0xF800` (pure red, any alpha) encodes to
three zero bytes, and a 1×1 chroma-keyed decode of that word is transparent. -/
theorem c4_chroma_key_witness :
    (rgb565Word 255 0 0 = 0xF800 ∧ genPxRGB565 true 0xF800 (255, 0, 0, 7) = [0, 0, 0]) ∧
    (decodeCkRGB565 1 1 [0x00, 0xF8] 0xF800 false 0 = some [(0, 0, 0, 0)] ∧
      ([(0, 0, 0, 0)] : List Pixel)[0]? = some (0, 0, 0, 0)) :=
  ⟨⟨by decide, c4_chroma_key.2.1 255 0 0 7 0xF800 (by decide)⟩,
   ⟨by decide,
    c4_chroma_key.2.2.2.1 1 1 [0x00, 0xF8] 0xF800 false 0 0 0 [(0, 0, 0, 0)]
      (by decide) (by decide) (by decide)⟩⟩

/-! ## C5 — round-trip -/

/-- C5 counterexample: a 1×1 all-white buffer encoded to RGB565_A8 and decoded
back (via the RGB565_ALPHA → RGBA conversion of the repository) yields
`(248,252,248,255)`, not the original `(255,255,255,255)` — RGB565_A8 is lossy
although the claim excludes only A8R3G3B2 and Alpha-1bit. -/
theorem c5_counterexample :
    convertRGB565Alpha (genSection (genPxRGB565 false 0) [(255, 255, 255, 255)]) =
      [(248, 252, 248, 255)] ∧
    ([(248, 252, 248, 255)] : List Pixel) ≠ [(255, 255, 255, 255)] := by
  constructor
  · decide
  · decide

theorem genPxRGBA32_false (ck : Nat) (p : Pixel) :
    genPxRGBA32 false ck p = [p.1, p.2.1, p.2.2.1, p.2.2.2] := by
  simp [genPxRGBA32]

theorem flat4_length (ck : Nat) (ps : List Pixel) :
    (ps.flatMap (genPxRGBA32 false ck)).length = 4 * ps.length := by
  induction ps with
  | nil => simp
  | cons p t ih => simp [genPxRGBA32_false, ih]; ring

theorem flat4_getD (ck : Nat) :
    ∀ (ps : List Pixel) (n : Nat) (hn : n < ps.length),
      ((ps.flatMap (genPxRGBA32 false ck)).getD (4 * n) 0,
       (ps.flatMap (genPxRGBA32 false ck)).getD (4 * n + 1) 0,
       (ps.flatMap (genPxRGBA32 false ck)).getD (4 * n + 2) 0,
       (ps.flatMap (genPxRGBA32 false ck)).getD (4 * n + 3) 0) = ps.get ⟨n, hn⟩
  | [], n, hn => absurd hn (by simp)
  | p :: t, 0, _ => by
    simp [List.flatMap_cons, genPxRGBA32_false]
  | p :: t, n + 1, hn => by
    have e0 : 4 * (n + 1) = 4 * n + 1 + 1 + 1 + 1 := by ring
    have e1 : 4 * (n + 1) + 1 = 4 * n + 1 + 1 + 1 + 1 + 1 := by ring
    have e2 : 4 * (n + 1) + 2 = 4 * n + 2 + 1 + 1 + 1 + 1 := by ring
    have e3 : 4 * (n + 1) + 3 = 4 * n + 3 + 1 + 1 + 1 + 1 := by ring
    have hn' : n < t.length := by simpa using hn
    simp only [List.flatMap_cons, genPxRGBA32_false, List.cons_append, List.nil_append,
      e0, e1, e2, e3, List.getD_cons_succ, List.get_cons_succ]
    exact flat4_getD ck t n hn'

/-- C5 amended: the exact round-trip holds for the 32-bit RGBA format — the
`generator.py` `LV_COLOR_DEPTH == 32` section followed by
`decode_true_color_alpha_v8_rgba` reproduces every pixel buffer exactly.  (The
5/6-bit color formats are lossy as well — see the counterexample — so the
exception list of the claim cannot be limited to A8R3G3B2 and Alpha-1bit.) -/
theorem c5_rgba32_roundtrip (w h : Nat) (pixels : List Pixel) (hw : 0 < w) (hh : 0 < h)
    (hlen : pixels.length = w * h) :
    decodeV8Rgba w h (genSection (genPxRGBA32 false 0) pixels) 0 = some pixels := by
  have hstr : resolveStride 0 (w * 4) = w * 4 := by simp [resolveStride]
  have hdl : (genSection (genPxRGBA32 false 0) pixels).length = 4 * (w * h) := by
    rw [genSection, flat4_length, hlen]
  simp only [decodeV8Rgba]
  split_ifs with h1 h2 h3
  · omega
  · rw [hstr] at h2; omega
  · rw [hstr, hdl] at h3; exfalso; nlinarith
  · congr 1
    apply List.ext_getElem?
    intro n
    rcases Nat.lt_or_ge n (w * h) with hlt | hge
    · have hx : n % w < w := Nat.mod_lt n hw
      have hy : n / w < h := by
        rw [Nat.div_lt_iff_lt_mul hw]
        calc n < w * h := hlt
          _ = h * w := by ring
      have hyx : n / w * w + n % w = n := by
        have h1 := Nat.div_add_mod n w
        have h2 : n / w * w = w * (n / w) := by ring
        omega
      have hn' : n < pixels.length := by omega
      have hg := grid_getElem h w
        (fun y x =>
          ((genSection (genPxRGBA32 false 0) pixels).getD
              (y * resolveStride 0 (w * 4) + 4 * x) 0,
           (genSection (genPxRGBA32 false 0) pixels).getD
              (y * resolveStride 0 (w * 4) + 4 * x + 1) 0,
           (genSection (genPxRGBA32 false 0) pixels).getD
              (y * resolveStride 0 (w * 4) + 4 * x + 2) 0,
           (genSection (genPxRGBA32 false 0) pixels).getD
              (y * resolveStride 0 (w * 4) + 4 * x + 3) 0))
        (n % w) (n / w) hx hy
      rw [hyx] at hg
      rw [hg, List.getElem?_eq_getElem hn']
      have hidx : n / w * resolveStride 0 (w * 4) + 4 * (n % w) = 4 * n := by
        rw [hstr]
        have hr : n / w * (w * 4) = 4 * (n / w * w) := by ring
        omega
      simp only [hidx]
      have h4 := flat4_getD 0 pixels n hn'
      rw [List.get_eq_getElem] at h4
      exact congrArg some h4
    · rw [List.getElem?_eq_none, List.getElem?_eq_none (by omega)]
      rw [grid_length]
      have : h * w = w * h := by ring
      omega

/-- Witness for the amended C5 theorem on a 1×1 buffer. -/
theorem c5_rgba32_roundtrip_witness :
    (0 : Nat) < 1 ∧
    decodeV8Rgba 1 1 (genSection (genPxRGBA32 false 0) [(10, 20, 30, 40)]) 0 =
      some [(10, 20, 30, 40)] :=
  ⟨by decide, c5_rgba32_roundtrip 1 1 [(10, 20, 30, 40)] (by decide) (by decide) (by decide)⟩

/-! ## C6 — alpha-only decoding -/

theorem alphaRow_spec (data : List Nat) (bits mask lineStart : Nat) :
    ∀ (n : Nat) (bo : Nat),
      (∀ k, k < n → lineStart + (bo + k * bits) / 8 < data.length) →
      alphaRow data bits mask lineStart n bo =
        (List.range n).map fun k =>
          ((0, 0, 0, expandAlpha bits
            ((data.getD (lineStart + (bo + k * bits) / 8) 0 >>>
              (8 - bits - (bo + k * bits) % 8)) &&& mask)) : Pixel) := by
  intro n
  induction n with
  | zero => intro bo _; simp [alphaRow]
  | succ m ih =>
    intro bo hin
    have h0 : lineStart + bo / 8 < data.length := by
      have := hin 0 (by omega)
      simpa using this
    have hsome : data[lineStart + bo / 8]? = some (data.getD (lineStart + bo / 8) 0) := by
      rw [List.getElem?_eq_getElem h0, List.getD_eq_getElem data 0 h0]
    rw [alphaRow, hsome]
    dsimp only
    rw [ih (bo + bits) (fun k hk => by
      have := hin (k + 1) (by omega)
      have e : bo + (k + 1) * bits = bo + bits + k * bits := by ring
      rwa [e] at this)]
    rw [List.range_succ_eq_map, List.map_cons, List.map_map]
    refine congrArg₂ (· :: ·) ?_ ?_
    · simp
    · apply List.map_congr_left
      intro k _
      have e : bo + bits + k * bits = bo + Nat.succ k * bits := by
        simp [Nat.succ_mul]; ring
      simp only [Function.comp, e]

/-- C6: for alpha-only images with `bits ∈ {1,2,4,8}`, codes are read
MSB-first within each byte with each row starting on a byte boundary
(stride `⌈w*bits/8⌉`), each code expands by the exact rules
(1-bit: 0/255 threshold on nonzero, 2-bit: `×85`, 4-bit: `×17`, 8-bit:
unchanged), and each decoded pixel is RGB black carrying that alpha. -/
theorem c6_alpha_decode (w h bits : Nat) (data : List Nat)
    (hbits : bits = 1 ∨ bits = 2 ∨ bits = 4 ∨ bits = 8)
    (hw : 0 < w) (hh : 0 < h)
    (hdata : h * ((w * bits + 7) / 8) ≤ data.length) :
    decodeAlphaGray w h bits 0 data 0 =
      some (grid h w fun y x =>
        (0, 0, 0, expandAlpha bits
          ((data.getD (y * ((w * bits + 7) / 8) + x * bits / 8) 0 >>>
            (8 - bits - x * bits % 8)) &&& (2 ^ bits - 1)))) := by
  have hstr : resolveStride 0 ((w * bits + 7) / 8) = (w * bits + 7) / 8 := by
    simp [resolveStride]
  simp only [decodeAlphaGray, hstr, Nat.one_shiftLeft]
  split_ifs with h1 h2 h3
  · omega
  · omega
  · exact (h3.1 rfl).elim
  · have hrows : ∀ y ∈ List.range h,
        alphaRow data bits (2 ^ bits - 1) (y * ((w * bits + 7) / 8)) w 0 =
          (List.range w).map fun x =>
            ((0, 0, 0, expandAlpha bits
              ((data.getD (y * ((w * bits + 7) / 8) + (0 + x * bits) / 8) 0 >>>
                (8 - bits - (0 + x * bits) % 8)) &&& (2 ^ bits - 1))) : Pixel) := by
      intro y hy
      have hy' : y < h := List.mem_range.mp hy
      apply alphaRow_spec
      intro k hk
      have hkb : (0 + k * bits) / 8 < (w * bits + 7) / 8 := by
        rcases hbits with rfl | rfl | rfl | rfl <;> omega
      have hmul : (y + 1) * ((w * bits + 7) / 8) ≤ h * ((w * bits + 7) / 8) :=
        Nat.mul_le_mul_right _ (by omega)
      have hsum : (y + 1) * ((w * bits + 7) / 8) =
          y * ((w * bits + 7) / 8) + (w * bits + 7) / 8 := by ring
      omega
    rw [List.flatMap_congr hrows]
    have hgrid : ((List.range h).flatMap fun y =>
        (List.range w).map fun x =>
          ((0, 0, 0, expandAlpha bits
            ((data.getD (y * ((w * bits + 7) / 8) + (0 + x * bits) / 8) 0 >>>
              (8 - bits - (0 + x * bits) % 8)) &&& (2 ^ bits - 1))) : Pixel)) =
        grid h w fun y x =>
          (0, 0, 0, expandAlpha bits
            ((data.getD (y * ((w * bits + 7) / 8) + x * bits / 8) 0 >>>
              (8 - bits - x * bits % 8)) &&& (2 ^ bits - 1))) := by
      simp [grid]
    rw [hgrid, grid_length]
    have : w * h - h * w = 0 := by
      have : h * w = w * h := by ring
      omega
    rw [this]
    simp

/-- Witness for C6: a 3×2 4-bit alpha image. -/
theorem c6_alpha_decode_witness :
    (2 : Nat) * ((3 * 4 + 7) / 8) ≤ 4 ∧
    decodeAlphaGray 3 2 4 0 [0xAB, 0xC0, 0x12, 0x30] 0 =
      some [(0, 0, 0, 170), (0, 0, 0, 187), (0, 0, 0, 204),
            (0, 0, 0, 17), (0, 0, 0, 34), (0, 0, 0, 51)] :=
  ⟨by decide,
   (c6_alpha_decode 3 2 4 [0xAB, 0xC0, 0x12, 0x30]
     (by decide) (by decide) (by decide) (by decide)).trans (by decide)⟩

/-! ## C7 — indexed decode never reads past the palette -/

theorem buildPal4_length : ∀ l : List Nat, (buildPal4 l).length = l.length / 4
  | b :: g :: r :: a :: rest => by
    simp [buildPal4, buildPal4_length rest]
    omega
  | [] => by simp [buildPal4]
  | [_] => by simp [buildPal4]
  | [_, _] => by simp [buildPal4]
  | [_, _, _] => by simp [buildPal4]

theorem buildPal3_length (swap : Bool) :
    ∀ l : List Nat, (buildPal3 swap l).length = l.length / 3
  | lo :: hi :: a :: rest => by
    simp [buildPal3, buildPal3_length swap rest]
    omega
  | [] => by simp [buildPal3]
  | [_] => by simp [buildPal3]
  | [_, _] => by simp [buildPal3]

theorem buildPal2_length : ∀ l : List Nat, (buildPal2 l).length = l.length / 2
  | v :: a :: rest => by
    simp [buildPal2, buildPal2_length rest]
    omega
  | [] => by simp [buildPal2]
  | [_] => by simp [buildPal2]

theorem buildPalette_length (depth : Nat) (swap : Bool) (raw : List Nat) :
    (buildPalette depth swap raw).length = raw.length / palStrideOf depth := by
  unfold buildPalette palStrideOf
  split_ifs <;> simp [buildPal4_length, buildPal3_length, buildPal2_length]

theorem idxRow_eq_idxRowD (pix : List Nat) (palette : List Pixel)
    (bits mask lineStart : Nat) (hp : mask < palette.length) :
    ∀ (n bo : Nat),
      idxRow pix palette bits mask lineStart n bo =
        idxRowD pix palette bits mask lineStart n bo := by
  intro n
  induction n with
  | zero => intro bo; rfl
  | succ m ih =>
    intro bo
    rw [idxRow, idxRowD]
    cases hbyte : pix[lineStart + bo / 8]? with
    | none => rfl
    | some byte =>
      dsimp only
      have hidx : (byte >>> (8 - bits - bo % 8)) &&& mask < palette.length :=
        lt_of_le_of_lt Nat.and_le_right hp
      rw [List.getElem?_eq_getElem hidx]
      dsimp only
      rw [ih, List.getD_eq_getElem palette (0, 0, 0, 0) hidx]

/-- C7: the palette is loaded with exactly `2^bits` entries (per-entry stride
4/3/2 bytes for the depth tags 32/16/8), every index produced by the unpacker
is masked to `bits` width and so lies below `2^bits`, and consequently the
out-of-range `IndexError` branch of `decode_indexed` is unreachable: the
decoder equals its total-lookup variant. -/
theorem c7_indexed_palette_safe (w h bits depth : Nat) (swap : Bool) (stride0 : Nat)
    (data : List Nat) (hlen : (1 <<< bits) * palStrideOf depth ≤ data.length) :
    (buildPalette depth swap (data.take ((1 <<< bits) * palStrideOf depth))).length =
      2 ^ bits ∧
    (∀ byte sh : Nat, (byte >>> sh) &&& ((1 <<< bits) - 1) < 2 ^ bits) ∧
    decodeIndexed w h bits depth swap stride0 data =
      decodeIndexedTotal w h bits depth swap stride0 data := by
  have hspos : 0 < palStrideOf depth := by
    unfold palStrideOf
    split_ifs <;> omega
  have hppos : 0 < 2 ^ bits := Nat.pos_pow_of_pos bits (by omega)
  have hpl : (buildPalette depth swap
      (data.take ((1 <<< bits) * palStrideOf depth))).length = 2 ^ bits := by
    rw [buildPalette_length, List.length_take, Nat.min_eq_left hlen, Nat.one_shiftLeft,
      Nat.mul_div_cancel _ hspos]
  have hmask : ∀ byte sh : Nat, (byte >>> sh) &&& ((1 <<< bits) - 1) < 2 ^ bits := by
    intro byte sh
    rw [Nat.one_shiftLeft]
    exact lt_of_le_of_lt Nat.and_le_right (by omega)
  refine ⟨hpl, hmask, ?_⟩
  have hrow : ∀ ls : Nat → Nat,
      ((List.range h).flatMap fun y =>
        idxRow (data.drop ((1 <<< bits) * palStrideOf depth))
          (buildPalette depth swap (data.take ((1 <<< bits) * palStrideOf depth)))
          bits ((1 <<< bits) - 1) (ls y) w 0) =
      ((List.range h).flatMap fun y =>
        idxRowD (data.drop ((1 <<< bits) * palStrideOf depth))
          (buildPalette depth swap (data.take ((1 <<< bits) * palStrideOf depth)))
          bits ((1 <<< bits) - 1) (ls y) w 0) := by
    intro ls
    apply List.flatMap_congr
    intro y _
    apply idxRow_eq_idxRowD
    rw [hpl, Nat.one_shiftLeft]
    omega
  simp only [decodeIndexed, decodeIndexedTotal]
  split_ifs <;>
    first
      | rfl
      | rw [hrow (fun y => y * stride0)]
      | rw [hrow (fun y => y * ((w * bits + 7) / 8))]

/-- Witness for C7 on a concrete 2×2 1-bit indexed image (8-bit palette). -/
theorem c7_indexed_palette_safe_witness :
    (1 <<< 1) * palStrideOf 8 ≤ 6 ∧
    decodeIndexed 2 2 1 8 false 0 [0xE0, 255, 0x03, 128, 0x80, 0x40] =
      decodeIndexedTotal 2 2 1 8 false 0 [0xE0, 255, 0x03, 128, 0x80, 0x40] :=
  ⟨by decide,
   (c7_indexed_palette_safe 2 2 1 8 false 0 [0xE0, 255, 0x03, 128, 0x80, 0x40]
     (by decide)).2.2⟩

/-! ## C8 — A8R3G3B2 encoder variants -/

/-- C8: `generator.py` emits the claimed two bytes
`[((r>>5)<<5) ||| ((g>>5)<<2) ||| (b>>6), a]` per pixel, but the
`generator_cli.py` and `generator_simple.py` A8R3G3B2 sections emit a single
byte (the alpha threshold result; the computed color byte is dropped), shown
here on the pixel `(255,0,0,255)`. -/
theorem c8_a8r3g3b2_encoders :
    (∀ r g b a : Nat, r < 256 → g < 256 → b < 256 →
      genPxA8R3G3B2 false 0 (r, g, b, a) =
        [((r >>> 5) <<< 5) ||| ((g >>> 5) <<< 2) ||| (b >>> 6), a]) ∧
    cliPxA8R3G3B2 (255, 0, 0, 255) = [0xFF] ∧
    simplePxA8R3G3B2 (255, 0, 0, 255) = [0xFF] := by
  refine ⟨?_, by decide, by decide⟩
  intro r g b a hr hg hb
  have h3r : (r >>> 5) &&& 0x7 = r >>> 5 := mask_absorb r 5 3 (by norm_num; omega)
  have h3g : (g >>> 5) &&& 0x7 = g >>> 5 := mask_absorb g 5 3 (by norm_num; omega)
  have h2b : (b >>> 6) &&& 0x3 = b >>> 6 := mask_absorb b 6 2 (by norm_num; omega)
  simp only [genPxA8R3G3B2, a8r3g3b2Color, h3r, h3g, h2b]
  simp

/-- Witness for C8 at the pixel (255,0,0,255): `generator.py` emits the color
byte `0xE0` then the alpha byte. -/
theorem c8_a8r3g3b2_encoders_witness :
    (255 : Nat) < 256 ∧ genPxA8R3G3B2 false 0 (255, 0, 0, 255) = [0xE0, 0xFF] :=
  ⟨by decide,
   (c8_a8r3g3b2_encoders.1 255 0 0 255 (by decide) (by decide) (by decide)).trans
     (by decide)⟩

/-! ## C9 — guard splitting and byte extraction in the textual parser -/

/-- C9 counterexample: a guard-free array body yields the single buffer key
`Default` (capital D), not the claimed `default`. -/
theorem c9_counterexample :
    parseBody "0x01, 0x02".toList = some [("Default".toList, [1, 2])] ∧
    "Default".toList ≠ "default".toList := by
  constructor
  · decide
  · decide

theorem tryHexAt_length (cs : List Char) (v : Nat) (rem : List Char) (last : Char)
    (h : tryHexAt cs = some (v, rem, last)) : rem.length + 3 ≤ cs.length := by
  unfold tryHexAt at h
  split at h
  · split at h <;> simp_all
  · rw [Option.map_eq_some'] at h
    obtain ⟨a, ha, heq⟩ := h
    obtain ⟨rfl, rfl, rfl⟩ := Prod.mk.injEq .. ▸ heq
    simp
  · simp_all

theorem tryDecAt_length (cs : List Char) (v : Nat) (rem : List Char) (last : Char)
    (h : tryDecAt cs = some (v, rem, last)) : rem.length + 1 ≤ cs.length := by
  unfold tryDecAt at h
  split at h <;> (try split_ifs at h) <;> simp_all

theorem extractAux_congr : ∀ (n f1 f2 : Nat) (prev : Option Char) (cs : List Char),
    cs.length = n → n ≤ f1 → n ≤ f2 →
    extractAux f1 prev cs = extractAux f2 prev cs := by
  intro n
  induction n using Nat.strong_induction_on with
  | _ n ih =>
    intro f1 f2 prev cs hn h1 h2
    cases cs with
    | nil =>
      cases f1 <;> cases f2 <;> rfl
    | cons c rest =>
      obtain ⟨g1, rfl⟩ : ∃ g, f1 = g + 1 := ⟨f1 - 1, by simp at hn; omega⟩
      obtain ⟨g2, rfl⟩ : ∃ g, f2 = g + 1 := ⟨f2 - 1, by simp at hn; omega⟩
      simp only [extractAux]
      cases htry : tryHexAt (c :: rest) with
      | some t =>
        obtain ⟨v, rem, last⟩ := t
        dsimp only
        have hlen := tryHexAt_length _ _ _ _ htry
        simp only [List.length_cons] at hlen hn
        exact congrArg (v :: ·)
          (ih rem.length (by omega) g1 g2 (some last) rem rfl (by omega) (by omega))
      | none =>
        dsimp only
        have hrest : extractAux g1 (some c) rest = extractAux g2 (some c) rest := by
          exact ih rest.length (by simp at hn; omega) g1 g2 (some c) rest rfl
            (by simp at hn; omega) (by simp at hn; omega)
        cases hpw : (match prev with
          | none => false
          | some p => wordChar p) with
        | true => simp only [hpw, if_true]; exact hrest
        | false =>
          simp only [hpw, Bool.false_eq_true, if_false]
          cases hdec : tryDecAt (c :: rest) with
          | none => exact hrest
          | some t =>
            obtain ⟨v, rem, last⟩ := t
            dsimp only
            have hlen := tryDecAt_length _ _ _ _ hdec
            simp only [List.length_cons] at hlen hn
            have hrem : extractAux g1 (some last) rem = extractAux g2 (some last) rem :=
              ih rem.length (by omega) g1 g2 (some last) rem rfl (by omega) (by omega)
            by_cases hv : v ≤ 255 <;> simp [hv, hrem]


theorem extract_hex_step (prev : Option Char) (c : Char) (rest : List Char)
    (v : Nat) (rem : List Char) (last : Char)
    (h : tryHexAt (c :: rest) = some (v, rem, last)) :
    extractAux (c :: rest).length prev (c :: rest) =
      v :: extractAux rem.length (some last) rem := by
  have hlen := tryHexAt_length _ _ _ _ h
  simp only [List.length_cons] at hlen ⊢
  simp only [extractAux, h]
  exact congrArg (v :: ·)
    (extractAux_congr rem.length rest.length rem.length (some last) rem rfl
      (by omega) (by omega))

theorem extract_dec_step (prev : Option Char) (c : Char) (rest : List Char)
    (v : Nat) (rem : List Char) (last : Char)
    (hhex : tryHexAt (c :: rest) = none)
    (hprev : ∀ p, prev = some p → wordChar p = false)
    (h : tryDecAt (c :: rest) = some (v, rem, last)) :
    extractAux (c :: rest).length prev (c :: rest) =
      if v ≤ 255 then v :: extractAux rem.length (some last) rem
      else extractAux rem.length (some last) rem := by
  have hlen := tryDecAt_length _ _ _ _ h
  simp only [List.length_cons] at hlen ⊢
  simp only [extractAux, hhex, h]
  have hcg := extractAux_congr rem.length rest.length rem.length (some last) rem rfl
    (by omega) (by omega)
  cases prev with
  | none =>
    by_cases hv : v ≤ 255 <;> simp [hv, hcg]
  | some p =>
    have hp : wordChar p = false := hprev p rfl
    by_cases hv : v ≤ 255 <;> simp [hv, hcg, hp]

theorem extract_skip_step (prev : Option Char) (c : Char) (rest : List Char)
    (hhex : tryHexAt (c :: rest) = none)
    (hskip : (∃ p, prev = some p ∧ wordChar p = true) ∨ tryDecAt (c :: rest) = none) :
    extractAux (c :: rest).length prev (c :: rest) =
      extractAux rest.length (some c) rest := by
  simp only [List.length_cons]
  simp only [extractAux, hhex]
  rcases hskip with ⟨p, rfl, hp⟩ | hdec
  · simp [hp]
  · cases prev with
    | none => simp [hdec]
    | some p => cases hpb : wordChar p <;> simp [hpb, hdec]


theorem not_digit_of_not_word (c : Char) (h : wordChar c = false) : c.isDigit = false := by
  simp only [wordChar, Char.isAlphanum, Bool.or_eq_false_iff] at h
  exact h.1.2

theorem tryHexAt_none_of_digit (d1 d2 : Char) (rest : List Char)
    (h : d2.isDigit = true) : tryHexAt (d1 :: d2 :: rest) = none := by
  unfold tryHexAt
  split <;> first | rfl | simp_all

theorem tryDecAt_dec3 (d1 d2 d3 c : Char) (rest : List Char)
    (h1 : d1.isDigit = true) (h2 : d2.isDigit = true) (h3 : d3.isDigit = true)
    (hc : wordChar c = false) :
    tryDecAt (d1 :: d2 :: d3 :: c :: rest) =
      some (100 * digitVal d1 + 10 * digitVal d2 + digitVal d3, c :: rest, d3) := by
  have hcd : c.isDigit = false := not_digit_of_not_word c hc
  simp [tryDecAt, h1, h2, h3, hcd, hc]

theorem tryDecAt_dec2 (d1 d2 c : Char) (rest : List Char)
    (h1 : d1.isDigit = true) (h2 : d2.isDigit = true)
    (hc : wordChar c = false) :
    tryDecAt (d1 :: d2 :: c :: rest) =
      some (10 * digitVal d1 + digitVal d2, c :: rest, d2) := by
  have hcd : c.isDigit = false := not_digit_of_not_word c hc
  cases rest with
  | nil => simp [tryDecAt, h1, h2, hcd, hc]
  | cons r rs => simp [tryDecAt, h1, h2, hcd, hc]

theorem tryDecAt_dec1 (d1 c : Char) (rest : List Char)
    (h1 : d1.isDigit = true) (hc : wordChar c = false) :
    tryDecAt (d1 :: c :: rest) = some (digitVal d1, c :: rest, d1) := by
  have hcd : c.isDigit = false := not_digit_of_not_word c hc
  cases rest with
  | nil => simp [tryDecAt, h1, hcd, hc]
  | cons r rs =>
    cases rs with
    | nil => simp [tryDecAt, h1, hcd, hc]
    | cons r1 rs1 => simp [tryDecAt, h1, hcd, hc]

theorem tryDecAt_run4 (d1 d2 d3 d4 : Char) (rest : List Char)
    (h1 : d1.isDigit = true) (h2 : d2.isDigit = true) (h3 : d3.isDigit = true)
    (h4 : d4.isDigit = true) :
    tryDecAt (d1 :: d2 :: d3 :: d4 :: rest) = none := by
  simp [tryDecAt, h1, h2, h3, h4]


theorem digitVal_le_nine (c : Char) (h : c.isDigit = true) : digitVal c ≤ 9 := by
  simp only [Char.isDigit, Bool.and_eq_true, decide_eq_true_eq] at h
  obtain ⟨h1, h2⟩ := h
  have g2 : c.val.toNat ≤ 57 := h2
  have g0 : ('0' : Char).val.toNat = 48 := rfl
  simp only [digitVal, Char.toNat]
  omega

theorem collectEntries_some : ∀ pairs : List (List Char × List Char),
    (∀ q ∈ pairs, (firstLineSplit q.2).isSome) →
    collectEntries pairs = some (pairs.map fun q =>
      (stripPy ((firstLineSplit q.2).getD ([], [])).1,
       extractBytes (beforeEndif ((firstLineSplit q.2).getD ([], [])).2))) := by
  intro pairs
  induction pairs with
  | nil => intro _; simp [collectEntries]
  | cons q qs ih =>
    intro h
    obtain ⟨ld, hld⟩ := Option.isSome_iff_exists.mp (h q (by simp))
    rw [collectEntries, hld]
    rw [ih (fun a ha => h a (by simp [ha]))]
    simp [hld]

theorem collectEntries_none : ∀ (pairs : List (List Char × List Char))
    (q : List Char × List Char), q ∈ pairs → firstLineSplit q.2 = none →
    collectEntries pairs = none := by
  intro pairs
  induction pairs with
  | nil => intro q hq _; cases hq
  | cons p ps ih =>
    intro q hq hnone
    rcases List.mem_cons.mp hq with rfl | hq'
    · rw [collectEntries, hnone]
    · rw [collectEntries]
      cases hp : firstLineSplit p.2 with
      | none => rfl
      | some ld => rw [ih q hq' hnone]; rfl

theorem dictInsert_append : ∀ (m : List (List Char × List Nat)) (k : List Char)
    (v : List Nat), (∀ p ∈ m, p.1 ≠ k) → dictInsert m k v = m ++ [(k, v)] := by
  intro m
  induction m with
  | nil => intro k v _; rfl
  | cons e rest ih =>
    intro k v h
    obtain ⟨k₀, v₀⟩ := e
    have hne : k₀ ≠ k := h (k₀, v₀) (by simp)
    have hbeq : (k₀ == k) = false := beq_eq_false_iff_ne.mpr hne
    simp [dictInsert, hbeq, ih k v (fun p hp => h p (by simp [hp]))]

theorem foldl_dictInsert : ∀ (entries acc : List (List Char × List Nat)),
    (∀ e ∈ entries, ∀ p ∈ acc, p.1 ≠ e.1) →
    entries.Pairwise (fun a b => a.1 ≠ b.1) →
    entries.foldl (fun acc e => dictInsert acc e.1 e.2) acc = acc ++ entries := by
  intro entries
  induction entries with
  | nil => intro acc _ _; simp
  | cons e rest ih =>
    intro acc hdisj hpw
    rw [List.foldl_cons, dictInsert_append acc e.1 e.2 (fun p hp => hdisj e (by simp) p hp)]
    rw [ih (acc ++ [e]) ?_ (List.pairwise_cons.mp hpw).2]
    · simp
    · intro er her p hp
      rcases List.mem_append.mp hp with hin | hsing
      · exact hdisj er (by simp [her]) p hin
      · have hpe : p = e := by simpa using hsing
        subst hpe
        exact (List.pairwise_cons.mp hpw).1 er her


/-- C9 amended: (i) with no guard marker the whole body becomes one buffer
keyed `Default` (capital D, not `default`); (ii) with guard markers, empty
pre-marker text, a newline on every guard line and pairwise distinct
conditions, the parser returns exactly one named buffer per guarded
sub-block, keyed by the exact guard condition text (the stripped remainder of
the marker line) with bytes taken up to `#endif`; (iii) non-whitespace text
before the first marker makes the parse raise (`none`); (iv) so does a guard
line without a newline; byte extraction at any scan position (v) accepts a
hex literal `0xNN` as `16*N+N`, (vi)-(viii) accepts bare decimal runs of
three/two/one digits at word boundaries, keeping the value only when `≤ 255`,
(ix) never reads a byte out of a run of four or more digits, and (x) skips a
single character whenever neither alternative matches. -/
theorem c9_parse_body :
    (∀ body, (splitMarkers body).2 = [] →
      parseBody body = some [("Default".toList, extractBytes body)]) ∧
    (∀ body pre pairs, splitMarkers body = (pre, pairs) → pairs ≠ [] →
      stripPy pre = [] →
      (∀ q ∈ pairs, (firstLineSplit q.2).isSome) →
      pairs.Pairwise (fun q1 q2 =>
        stripPy ((firstLineSplit q1.2).getD ([], [])).1 ≠
          stripPy ((firstLineSplit q2.2).getD ([], [])).1) →
      parseBody body = some (pairs.map fun q =>
        (stripPy ((firstLineSplit q.2).getD ([], [])).1,
         extractBytes (beforeEndif ((firstLineSplit q.2).getD ([], [])).2)))) ∧
    (∀ body pre pairs, splitMarkers body = (pre, pairs) → pairs ≠ [] →
      stripPy pre ≠ [] → parseBody body = none) ∧
    (∀ body pre pairs q, splitMarkers body = (pre, pairs) → stripPy pre = [] →
      q ∈ pairs → firstLineSplit q.2 = none → parseBody body = none) ∧
    (∀ (prev : Option Char) (d1 d2 : Char) (rest : List Char) (v1 v2 : Nat),
      hexVal d1 = some v1 → hexVal d2 = some v2 →
      extractAux ('0' :: 'x' :: d1 :: d2 :: rest).length prev
          ('0' :: 'x' :: d1 :: d2 :: rest) =
        (16 * v1 + v2) :: extractAux rest.length (some d2) rest) ∧
    (∀ (prev : Option Char) (d1 d2 d3 c : Char) (rest : List Char),
      d1.isDigit = true → d2.isDigit = true → d3.isDigit = true →
      wordChar c = false → (∀ p, prev = some p → wordChar p = false) →
      extractAux (d1 :: d2 :: d3 :: c :: rest).length prev
          (d1 :: d2 :: d3 :: c :: rest) =
        if 100 * digitVal d1 + 10 * digitVal d2 + digitVal d3 ≤ 255
        then (100 * digitVal d1 + 10 * digitVal d2 + digitVal d3) ::
          extractAux (c :: rest).length (some d3) (c :: rest)
        else extractAux (c :: rest).length (some d3) (c :: rest)) ∧
    (∀ (prev : Option Char) (d1 d2 c : Char) (rest : List Char),
      d1.isDigit = true → d2.isDigit = true →
      wordChar c = false → (∀ p, prev = some p → wordChar p = false) →
      extractAux (d1 :: d2 :: c :: rest).length prev (d1 :: d2 :: c :: rest) =
        (10 * digitVal d1 + digitVal d2) ::
          extractAux (c :: rest).length (some d2) (c :: rest)) ∧
    (∀ (prev : Option Char) (d1 c : Char) (rest : List Char),
      d1.isDigit = true → wordChar c = false →
      (∀ p, prev = some p → wordChar p = false) →
      extractAux (d1 :: c :: rest).length prev (d1 :: c :: rest) =
        digitVal d1 :: extractAux (c :: rest).length (some d1) (c :: rest)) ∧
    (∀ (prev : Option Char) (d1 d2 d3 d4 : Char) (rest : List Char),
      d1.isDigit = true → d2.isDigit = true → d3.isDigit = true → d4.isDigit = true →
      extractAux (d1 :: d2 :: d3 :: d4 :: rest).length prev
          (d1 :: d2 :: d3 :: d4 :: rest) =
        extractAux (d2 :: d3 :: d4 :: rest).length (some d1)
          (d2 :: d3 :: d4 :: rest)) ∧
    (∀ (prev : Option Char) (c : Char) (rest : List Char),
      tryHexAt (c :: rest) = none →
      ((∃ p, prev = some p ∧ wordChar p = true) ∨ tryDecAt (c :: rest) = none) →
      extractAux (c :: rest).length prev (c :: rest) =
        extractAux rest.length (some c) rest) := by
  refine ⟨?_, ?_, ?_, ?_, ?_, ?_, ?_, ?_, ?_, ?_⟩
  · intro body hsplit
    simp only [parseBody, hsplit]
  · intro body pre pairs hsp hne hpre hnl hdist
    obtain ⟨q, qs, rfl⟩ : ∃ a l, pairs = a :: l := by
      cases pairs with
      | nil => exact absurd rfl hne
      | cons a l => exact ⟨a, l, rfl⟩
    simp only [parseBody, hsp]
    rw [if_neg (by simp [hpre])]
    rw [collectEntries_some _ hnl]
    have hpw2 : ((q :: qs).map fun q =>
        (stripPy ((firstLineSplit q.2).getD ([], [])).1,
         extractBytes (beforeEndif ((firstLineSplit q.2).getD ([], [])).2))).Pairwise
          (fun a b => a.1 ≠ b.1) :=
      List.Pairwise.map _ (fun a b hab => hab) hdist
    dsimp only
    rw [foldl_dictInsert _ [] (fun e _ p hp => absurd hp (List.not_mem_nil p)) hpw2]
    simp
  · intro body pre pairs hsp hne hpre
    obtain ⟨q, qs, rfl⟩ : ∃ a l, pairs = a :: l := by
      cases pairs with
      | nil => exact absurd rfl hne
      | cons a l => exact ⟨a, l, rfl⟩
    simp only [parseBody, hsp]
    rw [if_pos hpre]
  · intro body pre pairs q hsp hpre hq hnone
    obtain ⟨a, l, rfl⟩ : ∃ a l, pairs = a :: l := by
      cases pairs with
      | nil => cases hq
      | cons a l => exact ⟨a, l, rfl⟩
    simp only [parseBody, hsp]
    rw [if_neg (by simp [hpre])]
    rw [collectEntries_none _ q hq hnone]
  · intro prev d1 d2 rest v1 v2 hv1 hv2
    have h : tryHexAt ('0' :: 'x' :: d1 :: d2 :: rest) = some (16 * v1 + v2, rest, d2) := by
      simp [tryHexAt, hv1, hv2]
    exact extract_hex_step prev '0' ('x' :: d1 :: d2 :: rest) _ _ _ h
  · intro prev d1 d2 d3 c rest h1 h2 h3 hc hprev
    exact extract_dec_step prev d1 (d2 :: d3 :: c :: rest) _ _ _
      (tryHexAt_none_of_digit d1 d2 _ h2) hprev
      (tryDecAt_dec3 d1 d2 d3 c rest h1 h2 h3 hc)
  · intro prev d1 d2 c rest h1 h2 hc hprev
    have hb1 := digitVal_le_nine d1 h1
    have hb2 := digitVal_le_nine d2 h2
    have hstep := extract_dec_step prev d1 (d2 :: c :: rest) _ _ _
      (tryHexAt_none_of_digit d1 d2 _ h2) hprev
      (tryDecAt_dec2 d1 d2 c rest h1 h2 hc)
    rw [if_pos (by omega)] at hstep
    exact hstep
  · intro prev d1 c rest h1 hc hprev
    have hb1 := digitVal_le_nine d1 h1
    have hcx : c ≠ 'x' := by
      intro hx
      subst hx
      exact absurd hc (by decide)
    have hhex : tryHexAt (d1 :: c :: rest) = none := by
      unfold tryHexAt
      split <;> simp_all
    have hstep := extract_dec_step prev d1 (c :: rest) _ _ _ hhex hprev
      (tryDecAt_dec1 d1 c rest h1 hc)
    rw [if_pos (by omega)] at hstep
    exact hstep
  · intro prev d1 d2 d3 d4 rest h1 h2 h3 h4
    exact extract_skip_step prev d1 (d2 :: d3 :: d4 :: rest)
      (tryHexAt_none_of_digit d1 d2 _ h2)
      (Or.inr (tryDecAt_run4 d1 d2 d3 d4 rest h1 h2 h3 h4))
  · intro prev c rest hhex hskip
    exact extract_skip_step prev c rest hhex hskip

/-- Witness for the amended C9 theorem: a guard-free body keyed `Default`,
and a two-guard body split into one buffer per guard condition. -/
theorem c9_parse_body_witness :
    ((splitMarkers "0x05 10".toList).2 = [] ∧
      parseBody "0x05 10".toList = some [("Default".toList, [5, 10])]) ∧
    parseBody
        ("#if LV_COLOR_DEPTH == 16\n  0x01, 0x02,\n#elif LV_COLOR_DEPTH == 32\n  0x03, 0x04,\n#endif\n").toList =
      some [("LV_COLOR_DEPTH == 16".toList, [0x01, 0x02]),
            ("LV_COLOR_DEPTH == 32".toList, [0x03, 0x04])] :=
  ⟨⟨by decide, (c9_parse_body.1 "0x05 10".toList (by decide)).trans (by decide)⟩,
   (c9_parse_body.2.1
      ("#if LV_COLOR_DEPTH == 16\n  0x01, 0x02,\n#elif LV_COLOR_DEPTH == 32\n  0x03, 0x04,\n#endif\n").toList
      ([] : List Char)
      [("#if ".toList, "LV_COLOR_DEPTH == 16\n  0x01, 0x02,\n".toList),
       ("#elif ".toList, "LV_COLOR_DEPTH == 32\n  0x03, 0x04,\n#endif\n".toList)]
      (by decide) (by decide) (by decide) (by decide) (by decide)).trans (by decide)⟩

/-! ## C10 — the two byte-swapped RGB565_A8 encoder variants -/

/-- Transposes the first two bytes of an emitted pixel triple. -/
def swapPair : List Nat → List Nat
  | x :: y :: rest => y :: x :: rest
  | l => l

/-- C10 counterexample: on the opaque pure-red pixel the two byte-swapped
encoders disagree: `generator.py` emits `F8 00 FF`, `generator_simple.py`
emits `1F 00 FF`. -/
theorem c10_counterexample :
    genPxRGB565Swap false 0 (255, 0, 0, 255) = [0xF8, 0x00, 0xFF] ∧
    simplePxRGB565Swap (255, 0, 0, 255) = [0x1F, 0x00, 0xFF] ∧
    ([0xF8, 0x00, 0xFF] : List Nat) ≠ [0x1F, 0x00, 0xFF] := by
  refine ⟨by decide, by decide, by decide⟩

/-- C10 amended: the two variants are not identical; instead, for pixels the
simple variant does not blank (`a ≥ 8`), the output of `generator_simple.py` equals
the swapped output of `generator.py` on the red/blue-exchanged pixel with its two
color bytes transposed. -/
theorem c10_swap_variants_relation (r g b a : Nat) (ha : 8 ≤ a) :
    simplePxRGB565Swap (r, g, b, a) = swapPair (genPxRGB565Swap false 0 (b, g, r, a)) := by
  have h1 : ¬ a < 8 := by omega
  simp [simplePxRGB565Swap, genPxRGB565Swap, rgb565Word, swapPair, h1]

/-- Witness for the amended C10 theorem at the opaque pure-red pixel. -/
theorem c10_swap_variants_relation_witness :
    (8 : Nat) ≤ 255 ∧
    simplePxRGB565Swap (255, 0, 0, 255) =
      swapPair (genPxRGB565Swap false 0 (0, 0, 255, 255)) :=
  ⟨by decide, c10_swap_variants_relation 255 0 0 255 (by decide)⟩

end LvglCodec
